import Mathlib

/-!
Verification of the scoring and reporting core of the cyber health check
application (src/app.py) against its natural language specification.

The Python module is embedded shallowly:

* `st.session_state` is embedded as a partial map `String → Option PyVal`,
  where `PyVal` distinguishes int values from string values (the program
  branches on `isinstance(raw, int)` in `get_e8_map`).
* pandas DataFrames of shape `{Function, Score}` become `List (String × ℚ)`.
* Python floats become `ℚ`.  Every number the program manipulates is a mean
  of small integers; the claims proved below only depend on exactness of
  such values, on monotonicity of division by a positive constant, and on
  the 2-decimal rendering of the ten reachable scores, all of which agree
  between binary64 and `ℚ`.
* `nist_df.sort_values("Score")` (pandas, default quicksort) degenerates to
  a plain insertion sort for frames of fewer than 16 rows, which is stable;
  `sorted(..., key=...)` in Python is stable by specification.  Both are
  embedded as the stable insertion sort `sortS`.
* `datetime.now()` in `build_markdown_report` is embedded by passing the
  formatted clock value `now` as an explicit argument.
-/

/-- Python value stored in the session state for one widget key. -/
inductive PyVal where
  | int (n : ℤ)
  | str (s : String)
deriving DecidableEq

/-- The session state: a partial map from widget key to stored value. -/
def AppState : Type := String → Option PyVal

/-- SCALE = `{"No": 0, "Partially": 1, "Mostly": 2, "Fully": 3, "Don't know": 1}`. -/
def SCALE : List (String × ℤ) :=
  [("No", 0), ("Partially", 1), ("Mostly", 2), ("Fully", 3), ("Don\x27t know", 1)]

/-- NIST_FUNCTIONS = `["Identify", "Protect", "Detect", "Respond", "Recover"]`. -/
def NIST_FUNCTIONS : List String :=
  ["Identify", "Protect", "Detect", "Respond", "Recover"]

/-- QUESTIONS: the per function question texts of the question bank. -/
def QUESTIONS (func : String) : List String :=
  if func = "Identify" then
    ["We maintain an up-to-date asset inventory (devices, SaaS, data).",
     "We classify sensitive data and know where it lives.",
     "Roles and security responsibilities are clearly assigned."]
  else if func = "Protect" then
    ["Multi-factor authentication protects critical systems and remote access.",
     "Patching is managed and updates are applied within defined timeframes.",
     "Backups are tested and critical systems have recovery objectives."]
  else if func = "Detect" then
    ["We collect and review security logs from critical systems.",
     "We receive threat or vendor advisories and triage them.",
     "We baseline normal behaviour and detect anomalies."]
  else if func = "Respond" then
    ["We have an approved, tested incident response plan (IRP).",
     "We have a process for notifying affected parties/regulators where required.",
     "We can isolate endpoints, reset credentials and revoke access quickly."]
  else if func = "Recover" then
    ["We have a disaster recovery plan with RTO/RPO targets.",
     "We complete post-incident lessons learned and update playbooks.",
     "We regularly rehearse recovery procedures for priority systems."]
  else []

/-- E8_ITEMS: the eight Essential Eight control names. -/
def E8_ITEMS : List String :=
  ["Application Control", "Patch Applications", "Configure MS Office Macros",
   "User Application Hardening", "Restrict Admin Privileges",
   "Patch Operating Systems", "Multi-factor Authentication", "Regular Backups"]

/-- E8_SCALE = `["Not implemented", "Partially", "Mostly", "Fully"]`. -/
def E8_SCALE : List String :=
  ["Not implemented", "Partially", "Mostly", "Fully"]

/-- The widget key f-string `f"{func}_{i}"` of question `i` of `func`. -/
def qkey (func : String) (i : ℕ) : String :=
  func ++ "_" ++ toString i

/-- `SCALE.get(v, 1)`: a dict lookup with default 1; an int key is never
present in the string keyed dict, so it yields the default. -/
def scaleGet (v : PyVal) : ℤ :=
  match v with
  | .int _ => 1
  | .str s => (SCALE.lookup s).getD 1

/-- `SCALE.get(state.get(key, "Mostly"), 1)`: the resolved raw value of one
question under the session state. -/
def ansVal (state : AppState) (k : String) : ℤ :=
  scaleGet ((state k).getD (.str "Mostly"))

/-- The Score cell of one row of `compute_nist_scores`:
`float(np.mean(vals)) if vals else 0.0`. -/
def catScore (state : AppState) (func : String) : ℚ :=
  let vals := (List.range' 1 (QUESTIONS func).length).map (fun i => ansVal state (qkey func i))
  if vals = [] then 0 else (vals.sum : ℚ) / (vals.length : ℚ)

/-- `compute_nist_scores`: one row `{Function, Score}` per NIST function. -/
def compute_nist_scores (state : AppState) : List (String × ℚ) :=
  NIST_FUNCTIONS.map (fun func => (func, catScore state func))

/-- `overall = float(nist_df["Score"].mean()) if not nist_df.empty else 0.0`. -/
def overall (rows : List (String × ℚ)) : ℚ :=
  if rows = [] then 0 else ((rows.map (fun r => r.2)).sum) / (rows.length : ℚ)

/-- Reading one Score cell back out of the rows by Function name. -/
def getScore (rows : List (String × ℚ)) (func : String) : ℚ :=
  (rows.lookup func).getD 0

/-- Functional update of the session state at one key. -/
def setKey (state : AppState) (k : String) (v : PyVal) : AppState :=
  fun q => if q = k then some v else state q

/-- Stable insertion into a list that is kept sorted by `key`: the new
element goes behind every element whose key is less than or equal to its
own.  This is the insertion step shared by pandas `sort_values` on frames
of fewer than 16 rows (numpy insertion sort) and by Python `sorted`. -/
def insertS {α β : Type} [LinearOrder β] (key : α → β) (r : α) : List α → List α
  | [] => [r]
  | x :: xs => if key r < key x then r :: x :: xs else x :: insertS key r xs

/-- Stable ascending sort by `key` (insertion sort). -/
def sortS {α β : Type} [LinearOrder β] (key : α → β) (l : List α) : List α :=
  l.foldl (fun acc r => insertS key r acc) []

/-- `nist_df.sort_values("Score")`: rows ranked ascending by Score. -/
def rankNist (nist : List (String × ℚ)) : List (String × ℚ) :=
  sortS (fun r => r.2) nist

/-- The f-string `f"Lift **{lf}** maturity with time-boxed actions and clear owners."`. -/
def liftLine (lf : String) : String :=
  "Lift **" ++ lf ++ "** maturity with time-boxed actions and clear owners."

/-- The f-string for one Essential Eight recommendation row. -/
def e8Line (name : String) (score : ℤ) : String :=
  "Raise **Essential Eight — " ++ name ++ "** from Level " ++ toString score ++
    " via a 30–60 day improvement plan."

/-- The three unconditional tail recommendations of `compute_recos`. -/
def GENERIC_RECOS : List String :=
  ["Enforce **MFA** universally (privileged, email, remote, cloud).",
   "Tighten **patch SLAs** for internet-exposed systems and apps.",
   "Ensure **tested backups** with defined RTO/RPO."]

/-- `compute_recos(nist_df, e8_map)`: two lift lines for the two lowest
scoring functions, two raise lines for the two lowest Essential Eight
items, the generic tail, truncated to six entries. -/
def compute_recos (nist : List (String × ℚ)) (e8 : List (String × ℤ)) : List String :=
  let low_funcs := ((rankNist nist).take 2).map (fun r => r.1)
  let recs1 := low_funcs.map liftLine
  let recs2 := ((sortS (fun kv => kv.2) e8).take 2).map (fun kv => e8Line kv.1 kv.2)
  (recs1 ++ recs2 ++ GENERIC_RECOS).take 6

/-- The widget key f-string `f"E8_{i}"`. -/
def e8key (i : ℕ) : String :=
  "E8_" ++ toString i

/-- `raw if isinstance(raw, int) else (E8_SCALE.index(raw) if raw in E8_SCALE else 1)`. -/
def e8Resolve (raw : PyVal) : ℤ :=
  match raw with
  | .int n => n
  | .str s => if s ∈ E8_SCALE then (E8_SCALE.indexOf s : ℤ) else 1

/-- `get_e8_map`: one entry per Essential Eight item; a missing key
defaults to `E8_SCALE[1]`, the label "Partially". -/
def get_e8_map (state : AppState) : List (String × ℤ) :=
  E8_ITEMS.enum.map (fun p => (p.2, e8Resolve ((state (e8key p.1)).getD (.str "Partially"))))

/-- Round-half-even of `100 * q` to an integer: the rounding performed by
the Python format spec `.2f` (on the scores at hand the value is never a
tie, where binary64 and `ℚ` could part ways). -/
def round2 (q : ℚ) : ℤ :=
  let f := ⌊100 * q⌋
  let r := 100 * q - (f : ℚ)
  if 2 * r < 1 then f else if 1 < 2 * r then f + 1 else if f % 2 = 0 then f else f + 1

/-- The Python f-string format `{x:.2f}`. -/
def fmt2 (q : ℚ) : String :=
  let n := round2 q
  let m := n.natAbs
  (if n < 0 then "-" else "") ++ toString (m / 100) ++ "." ++
    (if m % 100 < 10 then "0" else "") ++ toString (m % 100)

/-- One bullet of the NIST results section of the report. -/
def nistLine (r : String × ℚ) : String :=
  "- **" ++ r.1 ++ "**: " ++ fmt2 r.2 ++ " / 3"

/-- One bullet of the Essential Eight section of the report. -/
def e8MapLine (kv : String × ℤ) : String :=
  "- **" ++ kv.1 ++ "**: Level " ++ toString kv.2

/-- Python `"\n".join(lines)`. -/
def joinNL : List String → String
  | [] => ""
  | [s] => s
  | s :: t :: rest => s ++ "\n" ++ joinNL (t :: rest)

/-- `build_markdown_report`.  The Python function reads the wall clock
(`datetime.now().strftime("%Y-%m-%d %H:%M")`); that environment read is
made explicit as the first argument `now`. -/
def build_markdown_report (now company industry size : String)
    (nist : List (String × ℚ)) (e8 : List (String × ℤ)) : String :=
  let title := if company = "" then "Cyber Health Check" else company
  let lines :=
    ["# " ++ title ++ " — NCP Cyber Health Check (NIST CSF)",
     "_Generated: " ++ now ++ "_  ·  _Industry:_ **" ++ industry ++ "**  ·  _Size:_ **" ++ size ++ "**",
     "",
     "## NIST CSF Results (0–3)"]
    ++ nist.map nistLine
    ++ ["", "## Essential Eight (Level 0–3)"]
    ++ e8.map e8MapLine
    ++ ["", "## Top Recommended Actions"]
    ++ (compute_recos nist e8).map (fun r => "- " ++ r)
    ++ ["", "> Prototype only — indicative, not a formal audit."]
  joinNL lines

/-- A score table over the five canonical functions, as produced by
`compute_nist_scores`, with arbitrary Score cells. -/
def nistTable (sI sP sD sRe sRc : ℚ) : List (String × ℚ) :=
  [("Identify", sI), ("Protect", sP), ("Detect", sD), ("Respond", sRe), ("Recover", sRc)]

/-- An Essential Eight level map over the eight canonical items, as
produced by `get_e8_map`, with arbitrary integer levels. -/
def e8Table (v0 v1 v2 v3 v4 v5 v6 v7 : ℤ) : List (String × ℤ) :=
  [("Application Control", v0), ("Patch Applications", v1),
   ("Configure MS Office Macros", v2), ("User Application Hardening", v3),
   ("Restrict Admin Privileges", v4), ("Patch Operating Systems", v5),
   ("Multi-factor Authentication", v6), ("Regular Backups", v7)]

/-- Bool test: the two character lists differ at some common index. -/
def diffAtB (a b : List Char) : Bool :=
  (List.range (min a.length b.length)).any (fun i => a.getD i ' ' != b.getD i ' ')

/-- The name part of an `e8Line`, recovered from its character list. -/
def e8NamePart (l : List Char) : List Char :=
  (l.drop 8).takeWhile (fun c => c != '*')

/-- The ten 2-decimal renderings of the reachable category scores k/3. -/
def GRID_STRS : List String :=
  ["0.00", "0.33", "0.67", "1.00", "1.33", "1.67", "2.00", "2.33", "2.67", "3.00"]

theorem compute_nist_scores_eq_table (state : AppState) :
    compute_nist_scores state =
      nistTable (catScore state "Identify") (catScore state "Protect")
        (catScore state "Detect") (catScore state "Respond") (catScore state "Recover") := rfl

/-! ### Generic helper lemmas: association lists, string inequality, stable sort -/

theorem lookup_mem_values {α β : Type} [BEq α] {k : α} {v : β} :
    ∀ {l : List (α × β)}, l.lookup k = some v → v ∈ l.map Prod.snd := by
  intro l
  induction l with
  | nil => simp [List.lookup]
  | cons x xs ih =>
    rcases x with ⟨a, b⟩
    simp only [List.lookup]
    cases h : k == a with
    | true => intro hv; simp at hv; simp [hv]
    | false => intro hv; simp [ih hv]

theorem append_ne_of_diffAtB {a b : List Char} (h : diffAtB a b = true) (x y : List Char) :
    a ++ x ≠ b ++ y := by
  intro heq
  rcases List.any_eq_true.mp h with ⟨i, hmem, hne⟩
  have hia : i < a.length := lt_of_lt_of_le (List.mem_range.mp hmem) (min_le_left _ _)
  have hib : i < b.length := lt_of_lt_of_le (List.mem_range.mp hmem) (min_le_right _ _)
  have heq2 : (a ++ x).getD i ' ' = (b ++ y).getD i ' ' := congrArg (fun l => l.getD i ' ') heq
  rw [List.getD_append _ _ _ _ hia, List.getD_append _ _ _ _ hib] at heq2
  exact absurd heq2 (by simpa using hne)

theorem strApp_ne_of_diffAtB {p q : String} (h : diffAtB p.data q.data = true) (s t : String) :
    p ++ s ≠ q ++ t := by
  intro heq
  exact append_ne_of_diffAtB h s.data t.data (by simpa [String.data_append] using congrArg String.data heq)

theorem strAppend_assoc (a b c : String) : a ++ b ++ c = a ++ (b ++ c) := by
  apply String.ext
  simp [String.data_append]

theorem strAppend_empty (s : String) : s ++ "" = s := by
  apply String.ext
  simp [String.data_append]

theorem strAppend_left_cancel {c a b : String} (h : c ++ a = c ++ b) : a = b := by
  apply String.ext
  have hd : c.data ++ a.data = c.data ++ b.data := by
    simpa [String.data_append] using congrArg String.data h
  exact List.append_cancel_left hd

theorem strAppend_right_cancel {c a b : String} (h : a ++ c = b ++ c) : a = b := by
  apply String.ext
  have hd : a.data ++ c.data = b.data ++ c.data := by
    simpa [String.data_append] using congrArg String.data h
  exact List.append_cancel_right hd

theorem liftLine_inj {a b : String} (h : liftLine a = liftLine b) : a = b := by
  have h2 : "Lift **" ++ a = "Lift **" ++ b := strAppend_right_cancel h
  exact strAppend_left_cancel h2

theorem takeWhile_append_all {p : Char → Bool} {a : List Char} (b : List Char)
    (h : ∀ c ∈ a, p c = true) : (a ++ b).takeWhile p = a ++ b.takeWhile p := by
  induction a with
  | nil => simp
  | cons c cs ih =>
    have hc : p c = true := h c (by simp)
    simp only [List.cons_append, List.takeWhile_cons, hc, if_true]
    rw [ih (fun d hd => h d (by simp [hd]))]

theorem e8NamePart_e8Line (n : String) (v : ℤ) (h : ∀ c ∈ n.data, (c != '*') = true) :
    e8NamePart (e8Line n v).data = "Essential Eight — ".data ++ n.data := by
  have hdata : (e8Line n v).data =
      "Raise **".data ++ ("Essential Eight — ".data ++ (n.data ++
        ("** from Level ".data ++ ((toString v).data ++ " via a 30–60 day improvement plan.".data)))) := by
    have : ("Raise **Essential Eight — " : String).data =
        "Raise **".data ++ "Essential Eight — ".data := by decide
    simp [e8Line, String.data_append, this]
  have hlen : ("Raise **" : String).data.length = 8 := by decide
  rw [e8NamePart, hdata, ← hlen, List.drop_left]
  rw [takeWhile_append_all _ (by decide)]
  rw [takeWhile_append_all _ h]
  have : (("** from Level ".data ++ ((toString v).data ++ " via a 30–60 day improvement plan.".data))).takeWhile (fun c => c != '*') = [] := by
    have hstar : (("**" : String).data.head?) = some '*' := by decide
    cases hK : ("** from Level " : String).data with
    | nil => exact absurd hK (by decide)
    | cons c cs =>
      have hc : c = '*' := by
        have := congrArg List.head? hK
        simp at this
        simpa using this.symm
      simp [hc]
  rw [this]
  simp

theorem e8Line_inj {a b : String} {v w : ℤ}
    (ha : ∀ c ∈ a.data, (c != '*') = true) (hb : ∀ c ∈ b.data, (c != '*') = true)
    (h : e8Line a v = e8Line b w) : a = b := by
  have h2 := congrArg (fun s => e8NamePart s.data) h
  simp only [e8NamePart_e8Line a v ha, e8NamePart_e8Line b w hb] at h2
  exact String.ext (List.append_cancel_left h2)

theorem insertS_perm {α β : Type} [LinearOrder β] (key : α → β) (r : α) (l : List α) :
    List.Perm (insertS key r l) (r :: l) := by
  induction l with
  | nil => exact List.Perm.refl _
  | cons x xs ih =>
    simp only [insertS]
    split
    · exact List.Perm.refl _
    · exact (ih.cons x).trans (List.Perm.swap r x xs)

theorem sortS_perm_aux {α β : Type} [LinearOrder β] (key : α → β) :
    ∀ (l acc : List α), List.Perm (List.foldl (fun acc r => insertS key r acc) acc l) (acc ++ l) := by
  intro l
  induction l with
  | nil => intro acc; simp
  | cons x xs ih =>
    intro acc
    simp only [List.foldl_cons]
    have h1 : List.Perm (List.foldl (fun acc r => insertS key r acc) (insertS key x acc) xs)
        (insertS key x acc ++ xs) := ih _
    have h2 : List.Perm (insertS key x acc ++ xs) ((x :: acc) ++ xs) :=
      (insertS_perm key x acc).append_right xs
    have h3 : List.Perm (x :: (acc ++ xs)) (acc ++ x :: xs) := List.perm_middle.symm
    exact (h1.trans h2).trans h3

theorem sortS_perm {α β : Type} [LinearOrder β] (key : α → β) (l : List α) :
    List.Perm (sortS key l) l := by
  have := sortS_perm_aux key l []
  simpa [sortS] using this

theorem insertS_sorted {α β : Type} [LinearOrder β] (key : α → β) {r : α} {l : List α}
    (h : l.Sorted (fun a b => key a ≤ key b)) :
    (insertS key r l).Sorted (fun a b => key a ≤ key b) := by
  induction l with
  | nil => simp [insertS]
  | cons x xs ih =>
    rcases List.sorted_cons.mp h with ⟨hx, hxs⟩
    simp only [insertS]
    split
    · rename_i hlt
      refine List.sorted_cons.mpr ⟨?_, h⟩
      intro b hb
      rcases List.mem_cons.mp hb with hbx | hbxs
      · exact hbx ▸ hlt.le
      · exact hlt.le.trans (hx b hbxs)
    · rename_i hnlt
      push_neg at hnlt
      refine List.sorted_cons.mpr ⟨?_, ih hxs⟩
      intro b hb
      have hb2 : b ∈ r :: xs := (insertS_perm key r xs).subset hb
      rcases List.mem_cons.mp hb2 with hbr | hbxs
      · exact hbr ▸ hnlt
      · exact hx b hbxs

theorem sortS_sorted {α β : Type} [LinearOrder β] (key : α → β) (l : List α) :
    (sortS key l).Sorted (fun a b => key a ≤ key b) := by
  suffices h : ∀ (l acc : List α), acc.Sorted (fun a b => key a ≤ key b) →
      (List.foldl (fun acc r => insertS key r acc) acc l).Sorted (fun a b => key a ≤ key b) by
    exact h l [] (by simp)
  intro l
  induction l with
  | nil => intro acc hacc; simpa using hacc
  | cons x xs ih =>
    intro acc hacc
    simp only [List.foldl_cons]
    exact ih _ (insertS_sorted key hacc)

theorem filter_insertS {α β : Type} [LinearOrder β] (key : α → β) {v : β} {r : α} {l : List α}
    (hs : l.Sorted (fun a b => key a ≤ key b)) :
    (insertS key r l).filter (fun a => decide (key a = v)) =
      if key r = v then l.filter (fun a => decide (key a = v)) ++ [r]
      else l.filter (fun a => decide (key a = v)) := by
  induction l with
  | nil =>
    by_cases hrv : key r = v
    · simp [insertS, List.filter_cons, hrv]
    · simp [insertS, List.filter_cons, hrv]
  | cons x xs ih =>
    rcases List.sorted_cons.mp hs with ⟨hx, hxs⟩
    simp only [insertS]
    split
    · rename_i hlt
      by_cases hrv : key r = v
      · have hnone : (x :: xs).filter (fun a => decide (key a = v)) = [] := by
          apply List.filter_eq_nil_iff.mpr
          intro b hb
          have hkb : key x ≤ key b := by
            rcases List.mem_cons.mp hb with hbx | hbxs
            · exact hbx ▸ le_refl _
            · exact hx b hbxs
          have hlt2 : key r < key b := lt_of_lt_of_le hlt hkb
          simp only [decide_eq_true_eq]
          intro hbv
          exact absurd (hbv.trans hrv.symm) (ne_of_gt hlt2)
        have hxv : ¬ (key x = v) := by
          intro hxv
          exact absurd (hxv.trans hrv.symm) (ne_of_gt hlt)
        rw [if_pos hrv, hnone]
        simp [List.filter_cons, hrv, hxv, List.filter_eq_nil_iff.mp hnone]
        intro b hb
        have := List.filter_eq_nil_iff.mp hnone b (List.mem_cons_of_mem x hb)
        simpa using this
      · rw [if_neg hrv]
        simp [List.filter_cons, hrv]
    · rename_i hnlt
      by_cases hrv : key r = v
      · rw [if_pos hrv]
        by_cases hxv : key x = v
        · simp [List.filter_cons, hxv, ih hxs, hrv]
        · simp [List.filter_cons, hxv, ih hxs, hrv]
      · rw [if_neg hrv]
        by_cases hxv : key x = v
        · simp [List.filter_cons, hxv, ih hxs, hrv]
        · simp [List.filter_cons, hxv, ih hxs, hrv]

theorem filter_sortS {α β : Type} [LinearOrder β] (key : α → β) (v : β) (l : List α) :
    (sortS key l).filter (fun a => decide (key a = v)) =
      l.filter (fun a => decide (key a = v)) := by
  suffices h : ∀ (l acc : List α), acc.Sorted (fun a b => key a ≤ key b) →
      (List.foldl (fun acc r => insertS key r acc) acc l).filter (fun a => decide (key a = v)) =
        acc.filter (fun a => decide (key a = v)) ++ l.filter (fun a => decide (key a = v)) by
    simpa using h l [] (by simp)
  intro l
  induction l with
  | nil => intro acc hacc; simp
  | cons x xs ih =>
    intro acc hacc
    simp only [List.foldl_cons]
    rw [ih _ (insertS_sorted key hacc), filter_insertS key hacc]
    by_cases hxv : key x = v
    · simp [List.filter, hxv]
    · simp [List.filter, hxv]

/-! ### Scoring engine lemmas -/

theorem catScore_eval (state : AppState) (func : String) (hf : func ∈ NIST_FUNCTIONS) :
    catScore state func =
      ((ansVal state (qkey func 1) + ansVal state (qkey func 2) + ansVal state (qkey func 3) : ℤ) : ℚ) / 3 := by
  have hlen : (QUESTIONS func).length = 3 := by
    simp only [NIST_FUNCTIONS] at hf
    fin_cases hf <;> rfl
  have hr : List.range' 1 3 = [1, 2, 3] := rfl
  simp only [catScore, hlen, hr, List.map_cons, List.map_nil, List.sum_cons, List.sum_nil,
    List.length_cons, List.length_nil]
  norm_num
  push_cast
  ring

theorem getScore_compute (state : AppState) (func : String) (hf : func ∈ NIST_FUNCTIONS) :
    getScore (compute_nist_scores state) func = catScore state func := by
  simp only [NIST_FUNCTIONS] at hf
  fin_cases hf <;>
    simp [getScore, compute_nist_scores, NIST_FUNCTIONS, List.lookup]

theorem ansVal_setKey_self (state : AppState) (k : String) (v : PyVal) :
    ansVal (setKey state k v) k = scaleGet v := by
  simp [ansVal, setKey]

theorem ansVal_setKey_other (state : AppState) {k q : String} (h : q ≠ k) (v : PyVal) :
    ansVal (setKey state k v) q = ansVal state q := by
  simp [ansVal, setKey, h]

theorem qkey_ne {func : String} {i j : ℕ} (h : toString i ≠ toString j) :
    qkey func i ≠ qkey func j := by
  intro heq
  exact h (strAppend_left_cancel heq)

theorem ansVal_bounds (state : AppState) (k : String) :
    0 ≤ ansVal state k ∧ ansVal state k ≤ 3 := by
  rw [ansVal]
  rcases (state k).getD (PyVal.str "Mostly") with n | s
  · simp [scaleGet]
  · simp only [scaleGet]
    cases hl : SCALE.lookup s with
    | none => simp
    | some w =>
      have hw := lookup_mem_values hl
      simp [SCALE] at hw
      rcases hw with h | h | h | h | h <;> simp [h]

theorem catScore_mono (st1 st2 : AppState) (func : String) (hf : func ∈ NIST_FUNCTIONS)
    (h : ∀ i : ℕ, 1 ≤ i → i ≤ 3 → ansVal st1 (qkey func i) ≤ ansVal st2 (qkey func i)) :
    catScore st1 func ≤ catScore st2 func := by
  rw [catScore_eval st1 func hf, catScore_eval st2 func hf]
  have h1 := h 1 (by norm_num) (by norm_num)
  have h2 := h 2 (by norm_num) (by norm_num)
  have h3 := h 3 (by norm_num) (by norm_num)
  rw [div_le_div_iff_of_pos_right (by norm_num : (0:ℚ) < 3)]
  have hsum : (ansVal st1 (qkey func 1) + ansVal st1 (qkey func 2) + ansVal st1 (qkey func 3) : ℤ) ≤
      (ansVal st2 (qkey func 1) + ansVal st2 (qkey func 2) + ansVal st2 (qkey func 3) : ℤ) := by
    linarith
  exact_mod_cast hsum

/-- Stability of the embedded sort: two rows with equal keys keep their
relative order. -/
theorem sortS_stable_pair {α β : Type} [LinearOrder β] (key : α → β) {a b : α} {l : List α}
    (hsub : List.Sublist [a, b] l) (heq : key a = key b) :
    List.Sublist [a, b] (sortS key l) := by
  have hf : [a, b].filter (fun x => decide (key x = key b)) = [a, b] := by
    simp [List.filter_cons, heq]
  have h1 : List.Sublist [a, b] (l.filter (fun x => decide (key x = key b))) := by
    have h2 := hsub.filter (fun x => decide (key x = key b))
    rwa [hf] at h2
  rw [← filter_sortS key (key b) l] at h1
  exact h1.trans (List.filter_sublist _)

/-! ### Claims about the scoring engine -/

/-- C1: when every question of every category is answered with the maximum
scoring label "Fully" (raw value 3), every Category Score produced by
`compute_nist_scores` is exactly 3.0 and the Overall Index (the mean of the
category scores) is exactly 3.0. -/
theorem c1_full_marks (state : AppState)
    (h : ∀ func ∈ NIST_FUNCTIONS, ∀ i : ℕ, 1 ≤ i → i ≤ (QUESTIONS func).length →
      state (qkey func i) = some (PyVal.str "Fully")) :
    (∀ r ∈ compute_nist_scores state, r.2 = 3) ∧
      overall (compute_nist_scores state) = 3 := by
  have hcat : ∀ func ∈ NIST_FUNCTIONS, catScore state func = 3 := by
    intro func hf
    have hlen : (QUESTIONS func).length = 3 := by
      have hf2 := hf
      simp only [NIST_FUNCTIONS] at hf2
      fin_cases hf2 <;> rfl
    have hv : ∀ i : ℕ, 1 ≤ i → i ≤ 3 → ansVal state (qkey func i) = 3 := by
      intro i h1 h3
      rw [ansVal, h func hf i h1 (by omega)]
      decide
    rw [catScore_eval state func hf, hv 1 (by norm_num) (by norm_num),
      hv 2 (by norm_num) (by norm_num), hv 3 (by norm_num) (by norm_num)]
    norm_num
  constructor
  · intro r hr
    rcases List.mem_map.mp hr with ⟨func, hfunc, rfl⟩
    exact hcat func hfunc
  · have hI := hcat "Identify" (by simp [NIST_FUNCTIONS])
    have hP := hcat "Protect" (by simp [NIST_FUNCTIONS])
    have hD := hcat "Detect" (by simp [NIST_FUNCTIONS])
    have hR := hcat "Respond" (by simp [NIST_FUNCTIONS])
    have hC := hcat "Recover" (by simp [NIST_FUNCTIONS])
    rw [compute_nist_scores_eq_table state, nistTable, hI, hP, hD, hR, hC]
    simp [overall]
    norm_num

theorem c1_full_marks_witness :
    (∀ r ∈ compute_nist_scores (fun _ => some (PyVal.str "Fully")), r.2 = 3) ∧
      overall (compute_nist_scores (fun _ => some (PyVal.str "Fully"))) = 3 :=
  c1_full_marks (fun _ => some (PyVal.str "Fully")) (fun _ _ _ _ _ => rfl)

/-- C2 counterexample: with the entirely absent answer set the Identify
Category Score is 2.0, not the 1.0 the claim derives from the neutral
"Don(x27)t know" default; the code defaults a missing answer to "Mostly"
(raw value 2). -/
theorem c2_counterexample :
    (compute_nist_scores (fun _ => none)).lookup "Identify" = some 2 ∧ (2 : ℚ) ≠ 1 := by
  constructor
  · have h : compute_nist_scores (fun _ => none) =
        [("Identify", 2), ("Protect", 2), ("Detect", 2), ("Respond", 2), ("Recover", 2)] := by
      simp [compute_nist_scores, NIST_FUNCTIONS, catScore, QUESTIONS, List.range',
        ansVal, qkey, scaleGet, SCALE, List.lookup]
    rw [h]
    simp [List.lookup]
  · norm_num

/-- C2 amended: for the entirely absent answer set `compute_nist_scores`
succeeds and deterministically scores every category 2.0, the value of the
default label "Mostly" (raw value 2), and the Overall Index is 2.0. -/
theorem c2_amended :
    compute_nist_scores (fun _ => none) = nistTable 2 2 2 2 2 ∧
      overall (compute_nist_scores (fun _ => none)) = 2 := by
  have h : compute_nist_scores (fun _ => none) = nistTable 2 2 2 2 2 := by
    simp [compute_nist_scores, NIST_FUNCTIONS, catScore, QUESTIONS, List.range',
      ansVal, qkey, scaleGet, SCALE, List.lookup, nistTable]
  refine ⟨h, ?_⟩
  rw [h, nistTable]
  simp [overall]
  norm_num

/-- C3 counterexample: the answer set mapping the known question id
Identify_1 to the label "Banana", which has no mapping in SCALE, does not
abort scoring: `compute_nist_scores` returns a complete score table, with
the unknown label silently scored as the default raw value 1. -/
theorem c3_counterexample :
    compute_nist_scores (setKey (fun _ => none) (qkey "Identify" 1) (PyVal.str "Banana")) =
      nistTable (5 / 3) 2 2 2 2 := by
  simp +decide [compute_nist_scores, NIST_FUNCTIONS, catScore, QUESTIONS, List.range',
    ansVal, qkey, scaleGet, SCALE, List.lookup, setKey, nistTable]
  norm_num

/-- C3 amended: a present choice label with no mapping in SCALE is not a
validation error; `compute_nist_scores` silently substitutes the default
raw value 1 for it, behaving exactly as if the label "Don(x27)t know"
(raw value 1) had been supplied. -/
theorem c3_amended (state : AppState) (q lab : String)
    (h : SCALE.lookup lab = none) :
    compute_nist_scores (setKey state q (PyVal.str lab)) =
      compute_nist_scores (setKey state q (PyVal.str "Don\x27t know")) := by
  have hv : ∀ k, ansVal (setKey state q (PyVal.str lab)) k =
      ansVal (setKey state q (PyVal.str "Don\x27t know")) k := by
    intro k
    by_cases hk : k = q
    · subst hk
      simp [ansVal, setKey, scaleGet, h]
      decide
    · simp [ansVal, setKey, hk]
  simp only [compute_nist_scores, catScore, hv]

theorem c3_amended_witness :
    SCALE.lookup "Banana" = none ∧
      compute_nist_scores (setKey (fun _ => none) "Identify_1" (PyVal.str "Banana")) =
        compute_nist_scores (setKey (fun _ => none) "Identify_1" (PyVal.str "Don\x27t know")) :=
  ⟨by decide, c3_amended (fun _ => none) "Identify_1" "Banana" (by decide)⟩

/-- C4: category scoring is monotone.  Replacing the answer of one question
of a category with a label of greater or equal SCALE raw value, holding all
other answers fixed, never decreases that category Score in the table
computed by `compute_nist_scores`. -/
theorem c4_monotone (state : AppState) (func : String) (hf : func ∈ NIST_FUNCTIONS)
    (i : ℕ) (hi1 : 1 ≤ i) (hi3 : i ≤ (QUESTIONS func).length)
    (la lb : String) (va vb : ℤ)
    (hla : SCALE.lookup la = some va) (hlb : SCALE.lookup lb = some vb) (hle : va ≤ vb) :
    getScore (compute_nist_scores (setKey state (qkey func i) (PyVal.str la))) func ≤
      getScore (compute_nist_scores (setKey state (qkey func i) (PyVal.str lb))) func := by
  have hlen : (QUESTIONS func).length = 3 := by
    have hf2 := hf
    simp only [NIST_FUNCTIONS] at hf2
    fin_cases hf2 <;> rfl
  rw [getScore_compute _ _ hf, getScore_compute _ _ hf]
  apply catScore_mono _ _ _ hf
  intro j hj1 hj3
  by_cases hji : j = i
  · subst hji
    rw [ansVal_setKey_self, ansVal_setKey_self]
    simp [scaleGet, hla, hlb, hle]
  · have hts : toString j ≠ toString i := by
      have hi : i ≤ 3 := by omega
      interval_cases i <;> interval_cases j <;> simp_all <;> decide
    rw [ansVal_setKey_other _ (qkey_ne hts), ansVal_setKey_other _ (qkey_ne hts)]

theorem c4_monotone_witness :
    SCALE.lookup "No" = some 0 ∧ SCALE.lookup "Fully" = some 3 ∧
      getScore (compute_nist_scores (setKey (fun _ => none) (qkey "Identify" 1) (PyVal.str "No"))) "Identify" ≤
        getScore (compute_nist_scores (setKey (fun _ => none) (qkey "Identify" 1) (PyVal.str "Fully"))) "Identify" :=
  ⟨by decide, by decide,
    c4_monotone (fun _ => none) "Identify" (by simp [NIST_FUNCTIONS]) 1 (by norm_num)
      (by decide) "No" "Fully" 0 3 (by decide) (by decide) (by decide)⟩

/-- C9: whatever the session state holds (arbitrary strings, including
labels unknown to SCALE, int values, absent keys), every Category Score
produced by `compute_nist_scores` lies in the display range [0, 3]. -/
theorem c9_range (state : AppState) :
    ∀ r ∈ compute_nist_scores state, 0 ≤ r.2 ∧ r.2 ≤ 3 := by
  intro r hr
  rcases List.mem_map.mp hr with ⟨func, hfunc, rfl⟩
  rw [catScore_eval state func hfunc]
  have b1 := ansVal_bounds state (qkey func 1)
  have b2 := ansVal_bounds state (qkey func 2)
  have b3 := ansVal_bounds state (qkey func 3)
  constructor
  · apply div_nonneg _ (by norm_num)
    have h0 : (0 : ℤ) ≤ ansVal state (qkey func 1) + ansVal state (qkey func 2) +
        ansVal state (qkey func 3) := by linarith [b1.1, b2.1, b3.1]
    exact_mod_cast h0
  · rw [div_le_iff₀ (by norm_num : (0:ℚ) < 3)]
    have h9 : (ansVal state (qkey func 1) + ansVal state (qkey func 2) +
        ansVal state (qkey func 3) : ℤ) ≤ 9 := by linarith [b1.2, b2.2, b3.2]
    calc ((ansVal state (qkey func 1) + ansVal state (qkey func 2) +
          ansVal state (qkey func 3) : ℤ) : ℚ) ≤ (9 : ℚ) := by exact_mod_cast h9
      _ = 3 * 3 := by norm_num

theorem c9_range_witness :
    0 ≤ (("Identify", (2 : ℚ))).2 ∧ (("Identify", (2 : ℚ))).2 ≤ 3 :=
  c9_range (fun _ => none) ("Identify", 2)
    (by
      have h : compute_nist_scores (fun _ => none) =
          [("Identify", 2), ("Protect", 2), ("Detect", 2), ("Respond", 2), ("Recover", 2)] := by
        simp [compute_nist_scores, NIST_FUNCTIONS, catScore, QUESTIONS, List.range',
          ansVal, qkey, scaleGet, SCALE, List.lookup]
      rw [h]
      simp)

/-- C10: `get_e8_map` yields exactly one entry per item of E8_ITEMS, in
order, and resolves each raw state value by type: an int passes through
unchanged (no range check), a string equal to one of the four E8_SCALE
labels maps to its index 0..3, and any other string as well as an absent
key maps to level 1. -/
theorem c10_e8_map (state : AppState) :
    (get_e8_map state).map Prod.fst = E8_ITEMS ∧
      get_e8_map state =
        E8_ITEMS.enum.map (fun p =>
          (p.2,
            match state (e8key p.1) with
            | none => 1
            | some (PyVal.int n) => n
            | some (PyVal.str s) =>
              if s = "Not implemented" then 0
              else if s = "Partially" then 1
              else if s = "Mostly" then 2
              else if s = "Fully" then 3
              else 1)) := by
  constructor
  · rw [get_e8_map, List.map_map]
    exact List.enum_map_snd E8_ITEMS
  · rw [get_e8_map]
    apply List.map_congr_left
    intro p _
    congr 1
    cases hs : state (e8key p.1) with
    | none => decide
    | some v =>
      cases v with
      | int n => rfl
      | str s =>
        simp only [Option.getD_some, e8Resolve]
        by_cases h1 : s = "Not implemented"
        · subst h1; decide
        · by_cases h2 : s = "Partially"
          · subst h2; decide
          · by_cases h3 : s = "Mostly"
            · subst h3; decide
            · by_cases h4 : s = "Fully"
              · subst h4; decide
              · simp [E8_SCALE, h1, h2, h3, h4]

/-! ### Claims about the recommendation generator -/

theorem liftLine_ne_e8Line (n m : String) (v : ℤ) : liftLine n ≠ e8Line m v := by
  rw [liftLine, e8Line]
  simp only [strAppend_assoc]
  exact strApp_ne_of_diffAtB (by decide) _ _

theorem liftLine_ne_generic (n g : String)
    (hd : diffAtB ("Lift **" : String).data g.data = true) : liftLine n ≠ g := by
  rw [liftLine, strAppend_assoc]
  conv_rhs => rw [← strAppend_empty g]
  exact strApp_ne_of_diffAtB hd _ _

theorem e8Line_ne_generic (m : String) (v : ℤ) (g : String)
    (hd : diffAtB ("Raise **Essential Eight — " : String).data g.data = true) :
    e8Line m v ≠ g := by
  rw [e8Line]
  simp only [strAppend_assoc]
  conv_rhs => rw [← strAppend_empty g]
  exact strApp_ne_of_diffAtB hd _ _

theorem e8_items_no_star : ∀ n ∈ E8_ITEMS, ∀ c ∈ n.data, (c != '*') = true := by decide

/-- C5: on any category score table over the five canonical functions and
any Essential Eight level map over the eight canonical items, the
recommendation list of `compute_recos` has length at most 6 and contains
no two equal strings.  `compute_recos` is a pure function of these two
arguments (no clock, no randomness), so equal inputs give the identical
ordered list. -/
theorem c5_recos_invariants (a b c d e : ℚ) (v0 v1 v2 v3 v4 v5 v6 v7 : ℤ) :
    (compute_recos (nistTable a b c d e) (e8Table v0 v1 v2 v3 v4 v5 v6 v7)).length ≤ 6 ∧
      (compute_recos (nistTable a b c d e) (e8Table v0 v1 v2 v3 v4 v5 v6 v7)).Nodup := by
  have hperm5 := sortS_perm (fun r : String × ℚ => r.2) (nistTable a b c d e)
  have hperm8 := sortS_perm (fun kv : String × ℤ => kv.2) (e8Table v0 v1 v2 v3 v4 v5 v6 v7)
  have hr5 : (rankNist (nistTable a b c d e)).length = 5 := by
    have h := hperm5.length_eq
    simpa [nistTable, rankNist] using h
  have hs8 : (sortS (fun kv : String × ℤ => kv.2) (e8Table v0 v1 v2 v3 v4 v5 v6 v7)).length = 8 := by
    have h := hperm8.length_eq
    simpa [e8Table] using h
  obtain ⟨r1, r2, rrest, hr⟩ : ∃ r1 r2 rrest,
      rankNist (nistTable a b c d e) = r1 :: r2 :: rrest := by
    rcases hL : rankNist (nistTable a b c d e) with _ | ⟨x, _ | ⟨y, rest⟩⟩
    · rw [hL] at hr5; simp at hr5
    · rw [hL] at hr5; simp at hr5
    · exact ⟨x, y, rest, rfl⟩
  obtain ⟨s1, s2, srest, hs⟩ : ∃ s1 s2 srest,
      sortS (fun kv : String × ℤ => kv.2) (e8Table v0 v1 v2 v3 v4 v5 v6 v7) = s1 :: s2 :: srest := by
    rcases hL : sortS (fun kv : String × ℤ => kv.2) (e8Table v0 v1 v2 v3 v4 v5 v6 v7)
      with _ | ⟨x, _ | ⟨y, rest⟩⟩
    · rw [hL] at hs8; simp at hs8
    · rw [hL] at hs8; simp at hs8
    · exact ⟨x, y, rest, rfl⟩
  have hr12 : r1.1 ≠ r2.1 := by
    have hnd : ((rankNist (nistTable a b c d e)).map Prod.fst).Nodup := by
      apply ((hperm5.map Prod.fst).nodup_iff).mpr
      simp +decide [nistTable]
    rw [hr] at hnd
    simp only [List.map_cons, List.nodup_cons, List.mem_cons] at hnd
    exact fun hEq => hnd.1 (Or.inl hEq)
  have hs12 : s1.1 ≠ s2.1 := by
    have hnd : ((sortS (fun kv : String × ℤ => kv.2)
        (e8Table v0 v1 v2 v3 v4 v5 v6 v7)).map Prod.fst).Nodup := by
      apply ((hperm8.map Prod.fst).nodup_iff).mpr
      simp +decide [e8Table]
    rw [hs] at hnd
    simp only [List.map_cons, List.nodup_cons, List.mem_cons] at hnd
    exact fun hEq => hnd.1 (Or.inl hEq)
  have hs1name : s1.1 ∈ E8_ITEMS := by
    have hmem : s1 ∈ e8Table v0 v1 v2 v3 v4 v5 v6 v7 := hperm8.subset (by rw [hs]; simp)
    have h2 : s1.1 ∈ (e8Table v0 v1 v2 v3 v4 v5 v6 v7).map Prod.fst := List.mem_map_of_mem _ hmem
    simpa [e8Table, E8_ITEMS] using h2
  have hs2name : s2.1 ∈ E8_ITEMS := by
    have hmem : s2 ∈ e8Table v0 v1 v2 v3 v4 v5 v6 v7 := hperm8.subset (by rw [hs]; simp)
    have h2 : s2.1 ∈ (e8Table v0 v1 v2 v3 v4 v5 v6 v7).map Prod.fst := List.mem_map_of_mem _ hmem
    simpa [e8Table, E8_ITEMS] using h2
  have hexp : compute_recos (nistTable a b c d e) (e8Table v0 v1 v2 v3 v4 v5 v6 v7) =
      [liftLine r1.1, liftLine r2.1, e8Line s1.1 s1.2, e8Line s2.1 s2.2,
       "Enforce **MFA** universally (privileged, email, remote, cloud).",
       "Tighten **patch SLAs** for internet-exposed systems and apps."] := by
    simp only [compute_recos]
    rw [hr, hs]
    simp [GENERIC_RECOS]
  rw [hexp]
  refine ⟨by simp, ?_⟩
  have hL12 : liftLine r1.1 ≠ liftLine r2.1 := fun hEq => hr12 (liftLine_inj hEq)
  have hE12 : e8Line s1.1 s1.2 ≠ e8Line s2.1 s2.2 := fun hEq =>
    hs12 (e8Line_inj (e8_items_no_star _ hs1name) (e8_items_no_star _ hs2name) hEq)
  refine List.nodup_cons.mpr ⟨?_, List.nodup_cons.mpr ⟨?_, List.nodup_cons.mpr ⟨?_,
    List.nodup_cons.mpr ⟨?_, List.nodup_cons.mpr ⟨?_, List.nodup_singleton _⟩⟩⟩⟩⟩
  · simp only [List.mem_cons, List.not_mem_nil, or_false]
    push_neg
    exact ⟨hL12, liftLine_ne_e8Line _ _ _, liftLine_ne_e8Line _ _ _,
      liftLine_ne_generic _ _ (by decide), liftLine_ne_generic _ _ (by decide)⟩
  · simp only [List.mem_cons, List.not_mem_nil, or_false]
    push_neg
    exact ⟨liftLine_ne_e8Line _ _ _, liftLine_ne_e8Line _ _ _,
      liftLine_ne_generic _ _ (by decide), liftLine_ne_generic _ _ (by decide)⟩
  · simp only [List.mem_cons, List.not_mem_nil, or_false]
    push_neg
    exact ⟨hE12, e8Line_ne_generic _ _ _ (by decide), e8Line_ne_generic _ _ _ (by decide)⟩
  · simp only [List.mem_cons, List.not_mem_nil, or_false]
    push_neg
    exact ⟨e8Line_ne_generic _ _ _ (by decide), e8Line_ne_generic _ _ _ (by decide)⟩
  · simp only [List.mem_cons, List.not_mem_nil, or_false]
    decide

/-- C6: the ranking that `compute_recos` builds with
`nist_df.sort_values("Score")` is ascending with a stable tie-break: two
rows of the canonical score table (which lists the categories in the fixed
order Identify, Protect, Detect, Respond, Recover) that carry equal scores
appear in the ranking in that same canonical order. -/
theorem c6_stable_ties (a b c d e : ℚ) (x y : String × ℚ)
    (hsub : List.Sublist [x, y] (nistTable a b c d e)) (heq : x.2 = y.2) :
    List.Sublist [x, y] (rankNist (nistTable a b c d e)) ∧
      (rankNist (nistTable a b c d e)).Sorted (fun p q => p.2 ≤ q.2) :=
  by
  constructor
  · rw [rankNist]
    exact sortS_stable_pair (fun r => r.2) hsub heq
  · rw [rankNist]
    exact sortS_sorted (fun r => r.2) (nistTable a b c d e)

theorem c6_stable_ties_witness :
    List.Sublist [(("Identify" : String), (1 : ℚ)), ("Protect", 1)] (nistTable 1 1 2 2 3) ∧
      (List.Sublist [(("Identify" : String), (1 : ℚ)), ("Protect", 1)]
          (rankNist (nistTable 1 1 2 2 3)) ∧
        (rankNist (nistTable 1 1 2 2 3)).Sorted (fun p q => p.2 ≤ q.2)) :=
  ⟨by decide, c6_stable_ties 1 1 2 2 3 ("Identify", 1) ("Protect", 1) (by decide) rfl⟩

/-- C8 counterexample: `compute_recos` takes no industry value at all; on
the concrete run below the list it returns consists of two lift lines, two
Essential Eight lines and two generic tail lines, and its final entry is
the generic patch line, not an industry specific advisory from any
industry to threats lookup table (no such table exists in the program). -/
theorem c8_counterexample :
    compute_recos (nistTable 2 2 2 2 2) (e8Table 1 1 1 1 1 1 1 1) =
      [liftLine "Identify", liftLine "Protect", e8Line "Application Control" 1,
       e8Line "Patch Applications" 1,
       "Enforce **MFA** universally (privileged, email, remote, cloud).",
       "Tighten **patch SLAs** for internet-exposed systems and apps."] ∧
      (compute_recos (nistTable 2 2 2 2 2) (e8Table 1 1 1 1 1 1 1 1)).getLast? =
        some "Tighten **patch SLAs** for internet-exposed systems and apps." := by
  constructor
  · decide
  · decide

/-- C8 amended: the recommendation generator has no industry input and
never appends an industry advisory line: whatever the scores and levels,
every entry of the returned list is a lift line for a NIST function, an
Essential Eight raise line for one of the canonical items, or one of the
three fixed generic tail lines. -/
theorem c8_amended (a b c d e : ℚ) (v0 v1 v2 v3 v4 v5 v6 v7 : ℤ) :
    ∀ r ∈ compute_recos (nistTable a b c d e) (e8Table v0 v1 v2 v3 v4 v5 v6 v7),
      (∃ f ∈ NIST_FUNCTIONS, r = liftLine f) ∨
        (∃ n ∈ E8_ITEMS, ∃ v : ℤ, r = e8Line n v) ∨ r ∈ GENERIC_RECOS := by
  intro r hr
  simp only [compute_recos] at hr
  have hr2 := (List.take_sublist 6 _).subset hr
  rcases List.mem_append.mp hr2 with h12 | hG
  · rcases List.mem_append.mp h12 with h1 | h2
    · left
      rcases List.mem_map.mp h1 with ⟨f, hf, rfl⟩
      rcases List.mem_map.mp hf with ⟨p, hp, rfl⟩
      refine ⟨p.1, ?_, rfl⟩
      have hp2 : p ∈ rankNist (nistTable a b c d e) := (List.take_sublist 2 _).subset hp
      have hp3 : p ∈ nistTable a b c d e :=
        (sortS_perm (fun r : String × ℚ => r.2) _).subset hp2
      have hp4 : p.1 ∈ (nistTable a b c d e).map Prod.fst := List.mem_map_of_mem _ hp3
      simpa [nistTable, NIST_FUNCTIONS] using hp4
    · right; left
      rcases List.mem_map.mp h2 with ⟨s, hsm, rfl⟩
      refine ⟨s.1, ?_, s.2, rfl⟩
      have hp2 : s ∈ sortS (fun kv : String × ℤ => kv.2) (e8Table v0 v1 v2 v3 v4 v5 v6 v7) :=
        (List.take_sublist 2 _).subset hsm
      have hp3 : s ∈ e8Table v0 v1 v2 v3 v4 v5 v6 v7 :=
        (sortS_perm (fun kv : String × ℤ => kv.2) _).subset hp2
      have hp4 : s.1 ∈ (e8Table v0 v1 v2 v3 v4 v5 v6 v7).map Prod.fst := List.mem_map_of_mem _ hp3
      simpa [e8Table, E8_ITEMS] using hp4
  · right; right; exact hG

theorem c8_amended_witness :
    (∃ f ∈ NIST_FUNCTIONS, liftLine "Identify" = liftLine f) ∨
      (∃ n ∈ E8_ITEMS, ∃ v : ℤ, liftLine "Identify" = e8Line n v) ∨
      liftLine "Identify" ∈ GENERIC_RECOS :=
  c8_amended 2 2 2 2 2 1 1 1 1 1 1 1 1 (liftLine "Identify") (by decide)

/-! ### Claims about report rendering -/

theorem joinNL_cons_of_ne_nil (p : String) {L : List String} (h : L ≠ []) :
    joinNL (p :: L) = p ++ "\n" ++ joinNL L := by
  cases L with
  | nil => exact absurd rfl h
  | cons t r => rfl

theorem strlen_data (s : String) : s.data.length = s.length := rfl

theorem joinNL_append_cons_ne (P : List String) (x1 x2 : String) (R1 R2 : List String)
    (hlen : x1.length = x2.length) (hne : x1 ≠ x2) :
    joinNL (P ++ x1 :: R1) ≠ joinNL (P ++ x2 :: R2) := by
  have hnl : ("\n" : String).length = 1 := rfl
  induction P with
  | nil =>
    simp only [List.nil_append]
    cases R1 with
    | nil =>
      cases R2 with
      | nil => simpa [joinNL] using hne
      | cons t2 r2 =>
        intro h
        have h2 : x1 = x2 ++ "\n" ++ joinNL (t2 :: r2) := by
          rw [← joinNL_cons_of_ne_nil x2 (by simp)]
          exact h
        have hl := congrArg String.length h2
        rw [String.length_append, String.length_append, hnl] at hl
        omega
    | cons t1 r1 =>
      cases R2 with
      | nil =>
        intro h
        have h2 : x1 ++ "\n" ++ joinNL (t1 :: r1) = x2 := by
          rw [← joinNL_cons_of_ne_nil x1 (by simp)]
          exact h
        have hl := congrArg String.length h2
        rw [String.length_append, String.length_append, hnl] at hl
        omega
      | cons t2 r2 =>
        intro h
        have h2 : x1 ++ "\n" ++ joinNL (t1 :: r1) = x2 ++ "\n" ++ joinNL (t2 :: r2) := by
          rw [← joinNL_cons_of_ne_nil x1 (by simp), ← joinNL_cons_of_ne_nil x2 (by simp)]
          exact h
        apply hne
        have hd := congrArg String.data h2
        simp only [String.data_append, List.append_assoc] at hd
        have hinj := List.append_inj hd hlen
        exact String.ext hinj.1
  | cons p P ih =>
    intro h
    simp only [List.cons_append] at h
    rw [joinNL_cons_of_ne_nil p (by simp), joinNL_cons_of_ne_nil p (by simp)] at h
    exact ih (strAppend_left_cancel h)

theorem strmid_ne {f1 f2 : String} (a b : String) (hne : f1 ≠ f2) :
    a ++ f1 ++ b ≠ a ++ f2 ++ b := by
  intro h
  exact hne (strAppend_left_cancel (strAppend_right_cancel h))

theorem fmt2_of_round2 (q : ℚ) (n : ℤ) (h : round2 q = n) :
    fmt2 q = (if n < 0 then "-" else "") ++ toString (n.natAbs / 100) ++ "." ++
      (if n.natAbs % 100 < 10 then "0" else "") ++ toString (n.natAbs % 100) := by
  simp only [fmt2, h]

theorem fmt2_third (k : ℕ) (hk : k ≤ 9) : fmt2 ((k : ℚ) / 3) = GRID_STRS.getD k "" := by
  interval_cases k
  · rw [fmt2_of_round2 _ 0 (by simp only [round2]; norm_num [Int.floor_eq_iff])]; decide
  · rw [fmt2_of_round2 _ 33 (by simp only [round2]; norm_num [Int.floor_eq_iff])]; decide
  · rw [fmt2_of_round2 _ 67 (by simp only [round2]; norm_num [Int.floor_eq_iff])]; decide
  · rw [fmt2_of_round2 _ 100 (by simp only [round2]; norm_num [Int.floor_eq_iff])]; decide
  · rw [fmt2_of_round2 _ 133 (by simp only [round2]; norm_num [Int.floor_eq_iff])]; decide
  · rw [fmt2_of_round2 _ 167 (by simp only [round2]; norm_num [Int.floor_eq_iff])]; decide
  · rw [fmt2_of_round2 _ 200 (by simp only [round2]; norm_num [Int.floor_eq_iff])]; decide
  · rw [fmt2_of_round2 _ 233 (by simp only [round2]; norm_num [Int.floor_eq_iff])]; decide
  · rw [fmt2_of_round2 _ 267 (by simp only [round2]; norm_num [Int.floor_eq_iff])]; decide
  · rw [fmt2_of_round2 _ 300 (by simp only [round2]; norm_num [Int.floor_eq_iff])]; decide

theorem fmt2_grid_len (k : ℕ) (hk : k ≤ 9) : (fmt2 ((k : ℚ) / 3)).length = 4 := by
  rw [fmt2_third k hk]
  interval_cases k <;> decide

theorem fmt2_inj_grid (k1 k2 : ℕ) (h1 : k1 ≤ 9) (h2 : k2 ≤ 9) (hne : k1 ≠ k2) :
    fmt2 ((k1 : ℚ) / 3) ≠ fmt2 ((k2 : ℚ) / 3) := by
  rw [fmt2_third k1 h1, fmt2_third k2 h2]
  interval_cases k1 <;> interval_cases k2 <;> simp_all <;> decide

theorem nistLine_congr (name : String) {q1 q2 : ℚ} (h : fmt2 q1 = fmt2 q2) :
    nistLine (name, q1) = nistLine (name, q2) := by
  simp [nistLine, h]

theorem nistLine_len_eq (name : String) {q1 q2 : ℚ}
    (h : (fmt2 q1).length = (fmt2 q2).length) :
    (nistLine (name, q1)).length = (nistLine (name, q2)).length := by
  simp [nistLine, String.length_append, h]

theorem nistLine_ne (name : String) {q1 q2 : ℚ} (hne : fmt2 q1 ≠ fmt2 q2) :
    nistLine (name, q1) ≠ nistLine (name, q2) := by
  simp only [nistLine]
  exact strmid_ne _ _ hne

/-- C7 counterexample: report rendering is not a function of the
organization metadata, scores, levels and recommendations alone: it also
reads the wall clock.  Two renderings of identical metadata, identical
score tables, identical Essential Eight levels (hence identical
recommendations) as produced one minute apart yield different text. -/
theorem c7_counterexample :
    build_markdown_report "2025-01-01 10:00" "Acme" "Finance" "1–9"
        (nistTable 2 2 2 2 2) (e8Table 1 1 1 1 1 1 1 1) ≠
      build_markdown_report "2025-01-01 10:01" "Acme" "Finance" "1–9"
        (nistTable 2 2 2 2 2) (e8Table 1 1 1 1 1 1 1 1) := by
  simp only [build_markdown_report, List.cons_append, List.nil_append]
  exact joinNL_append_cons_ne [_] _ _ _ _ (by decide) (by decide)

/-- C7 amended: with the clock reading held fixed (the `now` argument),
report rendering is a pure function of its inputs, and it is injective
over distinguishable scoring results: two score tables over the reachable
score grid k/3 that differ in at least one category by at least 0.01
render to different report text (same metadata, same Essential Eight
levels). -/
theorem c7_amended (now company industry size : String) (e8 : List (String × ℤ))
    (k1 k2 k3 k4 k5 m1 m2 m3 m4 m5 : ℕ)
    (hk1 : k1 ≤ 9) (hk2 : k2 ≤ 9) (hk3 : k3 ≤ 9) (hk4 : k4 ≤ 9) (hk5 : k5 ≤ 9)
    (hm1 : m1 ≤ 9) (hm2 : m2 ≤ 9) (hm3 : m3 ≤ 9) (hm4 : m4 ≤ 9) (hm5 : m5 ≤ 9)
    (hdiff : |((k1 : ℚ)/3) - ((m1 : ℚ)/3)| ≥ 1/100 ∨ |((k2 : ℚ)/3) - ((m2 : ℚ)/3)| ≥ 1/100 ∨
      |((k3 : ℚ)/3) - ((m3 : ℚ)/3)| ≥ 1/100 ∨ |((k4 : ℚ)/3) - ((m4 : ℚ)/3)| ≥ 1/100 ∨
      |((k5 : ℚ)/3) - ((m5 : ℚ)/3)| ≥ 1/100) :
    build_markdown_report now company industry size
        (nistTable ((k1 : ℚ)/3) ((k2 : ℚ)/3) ((k3 : ℚ)/3) ((k4 : ℚ)/3) ((k5 : ℚ)/3)) e8 ≠
      build_markdown_report now company industry size
        (nistTable ((m1 : ℚ)/3) ((m2 : ℚ)/3) ((m3 : ℚ)/3) ((m4 : ℚ)/3) ((m5 : ℚ)/3)) e8 := by
  have hfm : ∀ (ka ma : ℕ), ka ≤ 9 → ma ≤ 9 → |((ka : ℚ)/3) - ((ma : ℚ)/3)| ≥ 1/100 →
      fmt2 ((ka : ℚ)/3) ≠ fmt2 ((ma : ℚ)/3) := by
    intro ka ma hka hma hd
    apply fmt2_inj_grid ka ma hka hma
    intro hEq
    subst hEq
    simp at hd
    norm_num at hd
  by_cases h1 : fmt2 ((k1 : ℚ)/3) = fmt2 ((m1 : ℚ)/3)
  case neg =>
    simp only [build_markdown_report, nistTable, List.map_cons, List.map_nil,
      List.cons_append, List.nil_append]
    exact joinNL_append_cons_ne [_, _, _, _] _ _ _ _
      (nistLine_len_eq _ (by rw [fmt2_grid_len k1 hk1, fmt2_grid_len m1 hm1]))
      (nistLine_ne _ h1)
  case pos =>
  by_cases h2 : fmt2 ((k2 : ℚ)/3) = fmt2 ((m2 : ℚ)/3)
  case neg =>
    have hL1 := nistLine_congr "Identify" h1
    simp only [build_markdown_report, nistTable, List.map_cons, List.map_nil,
      List.cons_append, List.nil_append, hL1]
    exact joinNL_append_cons_ne [_, _, _, _, _] _ _ _ _
      (nistLine_len_eq _ (by rw [fmt2_grid_len k2 hk2, fmt2_grid_len m2 hm2]))
      (nistLine_ne _ h2)
  case pos =>
  by_cases h3 : fmt2 ((k3 : ℚ)/3) = fmt2 ((m3 : ℚ)/3)
  case neg =>
    have hL1 := nistLine_congr "Identify" h1
    have hL2 := nistLine_congr "Protect" h2
    simp only [build_markdown_report, nistTable, List.map_cons, List.map_nil,
      List.cons_append, List.nil_append, hL1, hL2]
    exact joinNL_append_cons_ne [_, _, _, _, _, _] _ _ _ _
      (nistLine_len_eq _ (by rw [fmt2_grid_len k3 hk3, fmt2_grid_len m3 hm3]))
      (nistLine_ne _ h3)
  case pos =>
  by_cases h4 : fmt2 ((k4 : ℚ)/3) = fmt2 ((m4 : ℚ)/3)
  case neg =>
    have hL1 := nistLine_congr "Identify" h1
    have hL2 := nistLine_congr "Protect" h2
    have hL3 := nistLine_congr "Detect" h3
    simp only [build_markdown_report, nistTable, List.map_cons, List.map_nil,
      List.cons_append, List.nil_append, hL1, hL2, hL3]
    exact joinNL_append_cons_ne [_, _, _, _, _, _, _] _ _ _ _
      (nistLine_len_eq _ (by rw [fmt2_grid_len k4 hk4, fmt2_grid_len m4 hm4]))
      (nistLine_ne _ h4)
  case pos =>
  by_cases h5 : fmt2 ((k5 : ℚ)/3) = fmt2 ((m5 : ℚ)/3)
  case neg =>
    have hL1 := nistLine_congr "Identify" h1
    have hL2 := nistLine_congr "Protect" h2
    have hL3 := nistLine_congr "Detect" h3
    have hL4 := nistLine_congr "Respond" h4
    simp only [build_markdown_report, nistTable, List.map_cons, List.map_nil,
      List.cons_append, List.nil_append, hL1, hL2, hL3, hL4]
    exact joinNL_append_cons_ne [_, _, _, _, _, _, _, _] _ _ _ _
      (nistLine_len_eq _ (by rw [fmt2_grid_len k5 hk5, fmt2_grid_len m5 hm5]))
      (nistLine_ne _ h5)
  case pos =>
  rcases hdiff with hd | hd | hd | hd | hd
  · exact absurd h1 (hfm k1 m1 hk1 hm1 hd)
  · exact absurd h2 (hfm k2 m2 hk2 hm2 hd)
  · exact absurd h3 (hfm k3 m3 hk3 hm3 hd)
  · exact absurd h4 (hfm k4 m4 hk4 hm4 hd)
  · exact absurd h5 (hfm k5 m5 hk5 hm5 hd)

theorem c7_amended_witness :
    build_markdown_report "2025-01-01 10:00" "Acme" "Finance" "1–9"
        (nistTable (((9 : ℕ) : ℚ)/3) (((9 : ℕ) : ℚ)/3) (((9 : ℕ) : ℚ)/3) (((9 : ℕ) : ℚ)/3)
          (((9 : ℕ) : ℚ)/3)) (e8Table 1 1 1 1 1 1 1 1) ≠
      build_markdown_report "2025-01-01 10:00" "Acme" "Finance" "1–9"
        (nistTable (((6 : ℕ) : ℚ)/3) (((6 : ℕ) : ℚ)/3) (((6 : ℕ) : ℚ)/3) (((6 : ℕ) : ℚ)/3)
          (((6 : ℕ) : ℚ)/3)) (e8Table 1 1 1 1 1 1 1 1) :=
  c7_amended "2025-01-01 10:00" "Acme" "Finance" "1–9" (e8Table 1 1 1 1 1 1 1 1)
    9 9 9 9 9 6 6 6 6 6
    (by norm_num) (by norm_num) (by norm_num) (by norm_num) (by norm_num)
    (by norm_num) (by norm_num) (by norm_num) (by norm_num) (by norm_num)
    (Or.inl (by push_cast; norm_num))
